import Mathlib

/-!
Verification of the Sia renter core: the host reputation decay engine
(`modules/renter/hostdb/hostentry.go`) and the erasure-coded piece
availability model (`modules/renter/files.go`).

The Go code performs the decay arithmetic in `float64`; we embed it with
exact rationals (`ℚ`).  The final `uint64(...)` conversion truncates a
non-negative float toward zero, which on non-negative values is the floor;
we embed it as `⌊·⌋.toNat` (non-negativity of every intermediate value is
proved below).  Block heights are `uint64` in Go; we embed them as `ℕ` and
model the one subtraction that can wrap (`bh - host.LastHistoricUpdate`)
with an explicit `% 2^64`.
-/

namespace Sia

/-- Configuration constants consumed by the reputation tracker.  In the Go
repository these are the package-level constants `historicInteractionDecay`,
`historicInteractionDecayLimit` and `recentInteractionWeightLimit`; the
update function reads them but their defining file is outside the excerpt,
so the model takes them as parameters. -/
structure HostDBConfig where
  historicInteractionDecay : ℚ
  historicInteractionDecayLimit : ℚ
  recentInteractionWeightLimit : ℚ

/-- The fields of `modules.HostDBEntry` read and written by
`updateHostHistoricInteractions` (all Go `uint64`). -/
structure HostDBEntry where
  HistoricSuccessfulInteractions : ℕ
  HistoricFailedInteractions : ℕ
  RecentSuccessfulInteractions : ℕ
  RecentFailedInteractions : ℕ
  LastHistoricUpdate : ℕ
deriving DecidableEq

/-- The quantity `passedTime := bh - host.LastHistoricUpdate`, a `uint64` subtraction
that wraps modulo `2^64`. -/
def passedTime (bh lastHistoricUpdate : ℕ) : ℕ :=
  (2 ^ 64 + bh - lastHistoricUpdate) % 2 ^ 64

/-- First stage of `updateHostHistoricInteractions`: apply the decay of a
single block, but only if there are more than `historicInteractionDecayLimit`
datapoints total. -/
def decayOneBlock (cfg : HostDBConfig) (hsi hfi : ℚ) : ℚ × ℚ :=
  if hsi + hfi > cfg.historicInteractionDecayLimit then
    (hsi * cfg.historicInteractionDecay, hfi * cfg.historicInteractionDecay)
  else
    (hsi, hfi)

/-- Second stage: clamp the recent interactions.  They cannot represent more
than `recentInteractionWeightLimit` of the (decayed) historic interactions,
unless there are fewer than `historicInteractionDecayLimit` total
interactions, in which case they cannot count for more than
`recentInteractionWeightLimit` of the decay limit. -/
def clampRecent (cfg : HostDBConfig) (hsi hfi rsi rfi : ℚ) : ℚ × ℚ :=
  if hsi + hfi > cfg.historicInteractionDecayLimit then
    if rsi + rfi > cfg.recentInteractionWeightLimit * (hsi + hfi) then
      let adjustment := cfg.recentInteractionWeightLimit * (hsi + hfi) / (rsi + rfi)
      (rsi * adjustment, rfi * adjustment)
    else
      (rsi, rfi)
  else
    if rsi + rfi > cfg.recentInteractionWeightLimit * cfg.historicInteractionDecayLimit then
      let adjustment :=
        cfg.recentInteractionWeightLimit * cfg.historicInteractionDecayLimit / (rsi + rfi)
      (rsi * adjustment, rfi * adjustment)
    else
      (rsi, rfi)

/-- Final stage: apply the decay of the remaining `passedTime - 1` blocks. -/
def decayRemaining (cfg : HostDBConfig) (pt : ℕ) (hsi hfi : ℚ) : ℚ × ℚ :=
  if pt > 1 ∧ hsi + hfi > cfg.historicInteractionDecayLimit then
    (hsi * cfg.historicInteractionDecay ^ (pt - 1),
     hfi * cfg.historicInteractionDecay ^ (pt - 1))
  else
    (hsi, hfi)

/-- The exact-rational value of the historic pair computed by
`updateHostHistoricInteractions` before the truncating store. -/
def updateRat (cfg : HostDBConfig) (host : HostDBEntry) (pt : ℕ) : ℚ × ℚ :=
  let d := decayOneBlock cfg
    (host.HistoricSuccessfulInteractions : ℚ) (host.HistoricFailedInteractions : ℚ)
  let r := clampRecent cfg d.1 d.2
    (host.RecentSuccessfulInteractions : ℚ) (host.RecentFailedInteractions : ℚ)
  decayRemaining cfg pt (d.1 + r.1) (d.2 + r.2)

/-- The function `updateHostHistoricInteractions` from `hostentry.go`: fold one block of
decay into the historic counters, clamp and merge the recent counters, apply
the remaining blocks of decay, truncate, reset the recent counters and stamp
the height. -/
def updateHostHistoricInteractions (cfg : HostDBConfig) (host : HostDBEntry)
    (bh : ℕ) : HostDBEntry :=
  let pt := passedTime bh host.LastHistoricUpdate
  if pt = 0 then
    host
  else
    { HistoricSuccessfulInteractions := ⌊(updateRat cfg host pt).1⌋.toNat
      HistoricFailedInteractions := ⌊(updateRat cfg host pt).2⌋.toNat
      RecentSuccessfulInteractions := 0
      RecentFailedInteractions := 0
      LastHistoricUpdate := bh }

/-- The configuration named by the spec's concrete scenario A:
`DecayFactor = 0.995`, `DecayLimit = 500`, `WeightLimit = 0.01`. -/
def cfgA : HostDBConfig :=
  { historicInteractionDecay := 199 / 200
    historicInteractionDecayLimit := 500
    recentInteractionWeightLimit := 1 / 100 }

/-- The host record of the spec's concrete scenario A. -/
def hostA : HostDBEntry :=
  { HistoricSuccessfulInteractions := 100
    HistoricFailedInteractions := 0
    RecentSuccessfulInteractions := 10
    RecentFailedInteractions := 0
    LastHistoricUpdate := 1000 }

/-- C1: with `DecayLimit = 500`, `WeightLimit = 0.01`, `DecayFactor = 0.995`,
the decay update applied to `Historic = (100, 0)`, `Recent = (10, 0)`,
`LastHistoricUpdate = 1000` at height `1001` yields exactly
`Historic = (105, 0)`, `Recent = (0, 0)`, `LastHistoricUpdate = 1001`. -/
theorem scenarioA_update :
    updateHostHistoricInteractions cfgA hostA 1001 =
      { HistoricSuccessfulInteractions := 105
        HistoricFailedInteractions := 0
        RecentSuccessfulInteractions := 0
        RecentFailedInteractions := 0
        LastHistoricUpdate := 1001 } := by
  norm_num [updateHostHistoricInteractions, updateRat, decayOneBlock, clampRecent,
    decayRemaining, passedTime, cfgA, hostA]
  decide

/-- C9: applying the decay update at a height equal to the record's
`LastHistoricUpdate` (so `passedTime = 0`) leaves the record unchanged. -/
theorem decayIdentity (cfg : HostDBConfig) (host : HostDBEntry) :
    updateHostHistoricInteractions cfg host host.LastHistoricUpdate = host := by
  have h : passedTime host.LastHistoricUpdate host.LastHistoricUpdate = 0 := by
    simp [passedTime]
  simp [updateHostHistoricInteractions, h]

/-- Modelled from the spec's words, for the refinement comparison only (C4):
the rejected variant that collapses the two-phase decay into "a single
`DecayFactor^Δ` application" performed before merging the recent counters;
the post-merge decay of step 6 is dropped.  Everything else (the decay-limit
guard, the clamp, truncation, resets) is kept as in the source. -/
def updateHostHistoricInteractionsCollapsed (cfg : HostDBConfig)
    (host : HostDBEntry) (bh : ℕ) : HostDBEntry :=
  let pt := passedTime bh host.LastHistoricUpdate
  if pt = 0 then
    host
  else
    let hsi0 : ℚ := (host.HistoricSuccessfulInteractions : ℚ)
    let hfi0 : ℚ := (host.HistoricFailedInteractions : ℚ)
    let d :=
      if hsi0 + hfi0 > cfg.historicInteractionDecayLimit then
        (hsi0 * cfg.historicInteractionDecay ^ pt,
         hfi0 * cfg.historicInteractionDecay ^ pt)
      else
        (hsi0, hfi0)
    let r := clampRecent cfg d.1 d.2
      (host.RecentSuccessfulInteractions : ℚ) (host.RecentFailedInteractions : ℚ)
    { HistoricSuccessfulInteractions := ⌊d.1 + r.1⌋.toNat
      HistoricFailedInteractions := ⌊d.2 + r.2⌋.toNat
      RecentSuccessfulInteractions := 0
      RecentFailedInteractions := 0
      LastHistoricUpdate := bh }

/-- A thin-history record with non-zero recent counters, used to refute the
universal "always differ" reading of the collapse comparison. -/
def hostThin : HostDBEntry :=
  { HistoricSuccessfulInteractions := 0
    HistoricFailedInteractions := 0
    RecentSuccessfulInteractions := 3
    RecentFailedInteractions := 0
    LastHistoricUpdate := 1000 }

/-- A rich-history record with non-zero recent counters on which the
two-phase and the collapsed decay genuinely disagree. -/
def hostRich : HostDBEntry :=
  { HistoricSuccessfulInteractions := 1000
    HistoricFailedInteractions := 0
    RecentSuccessfulInteractions := 9
    RecentFailedInteractions := 0
    LastHistoricUpdate := 1000 }

/-- C4 counterexample: the claim says the two-phase decay and the collapsed
`DecayFactor^Δ` decay differ *whenever* the recent counters are non-zero.
This is false: on a record with `Historic = (0, 0)`, `Recent = (3, 0)` and
`Δ = 2` (below the decay limit, so no decay fires at all) the two
computations agree exactly, even though the recent counters are non-zero. -/
theorem collapsedDecayCoincides :
    hostThin.RecentSuccessfulInteractions + hostThin.RecentFailedInteractions ≠ 0 ∧
      updateHostHistoricInteractions cfgA hostThin 1002 =
        updateHostHistoricInteractionsCollapsed cfgA hostThin 1002 := by
  constructor
  · decide
  · norm_num [updateHostHistoricInteractions, updateHostHistoricInteractionsCollapsed,
      updateRat, decayOneBlock, clampRecent, decayRemaining, passedTime, cfgA, hostThin]

/-- C4 amended: the two-phase decay is not equivalent to a single collapsed
`DecayFactor^Δ` decay applied before the merge — there are inputs with
non-zero recent counters on which the two computations produce different
results (`Historic = (1000, 0)`, `Recent = (9, 0)`, `Δ = 2` stores 998
vs. 999) — though they do not differ on *every* such input. -/
theorem collapsedDecayDiffersSomewhere :
    ∃ (cfg : HostDBConfig) (host : HostDBEntry) (bh : ℕ),
      host.RecentSuccessfulInteractions + host.RecentFailedInteractions ≠ 0 ∧
        updateHostHistoricInteractions cfg host bh ≠
          updateHostHistoricInteractionsCollapsed cfg host bh := by
  refine ⟨cfgA, hostRich, 1002, by decide, ?_⟩
  intro h
  have h1 := congrArg HostDBEntry.HistoricSuccessfulInteractions h
  norm_num [updateHostHistoricInteractions, updateHostHistoricInteractionsCollapsed,
    updateRat, decayOneBlock, clampRecent, decayRemaining, passedTime, cfgA, hostRich] at h1
  omega

/-- The clamped recent contribution is bounded by
`WeightLimit * max DecayLimit historicTotal`: either branch of `clampRecent`
leaves the pair untouched only when it already satisfies its cap, and scales
it exactly onto the cap otherwise. -/
theorem clampRecent_le (cfg : HostDBConfig)
    (hw : 0 ≤ cfg.recentInteractionWeightLimit)
    (hl : 0 ≤ cfg.historicInteractionDecayLimit)
    (hsi hfi rsi rfi : ℚ) :
    (clampRecent cfg hsi hfi rsi rfi).1 + (clampRecent cfg hsi hfi rsi rfi).2 ≤
      cfg.recentInteractionWeightLimit *
        max cfg.historicInteractionDecayLimit (hsi + hfi) := by
  unfold clampRecent
  split_ifs with h1 h2 h3
  · have ht0 : (0 : ℚ) ≤ hsi + hfi := le_trans hl (le_of_lt h1)
    have hr0 : (0 : ℚ) < rsi + rfi :=
      lt_of_le_of_lt (mul_nonneg hw ht0) h2
    have hne : rsi + rfi ≠ 0 := ne_of_gt hr0
    have key : rsi * (cfg.recentInteractionWeightLimit * (hsi + hfi) / (rsi + rfi)) +
        rfi * (cfg.recentInteractionWeightLimit * (hsi + hfi) / (rsi + rfi)) =
        cfg.recentInteractionWeightLimit * (hsi + hfi) := by
      rw [← add_mul]
      field_simp
    simp only []
    rw [key, max_eq_right (le_of_lt h1)]
  · simp only []
    rw [max_eq_right (le_of_lt h1)]
    exact not_lt.mp h2
  · have hr0 : (0 : ℚ) < rsi + rfi :=
      lt_of_le_of_lt (mul_nonneg hw hl) h3
    have hne : rsi + rfi ≠ 0 := ne_of_gt hr0
    have key : rsi * (cfg.recentInteractionWeightLimit *
          cfg.historicInteractionDecayLimit / (rsi + rfi)) +
        rfi * (cfg.recentInteractionWeightLimit *
          cfg.historicInteractionDecayLimit / (rsi + rfi)) =
        cfg.recentInteractionWeightLimit * cfg.historicInteractionDecayLimit := by
      rw [← add_mul]
      field_simp
    simp only []
    rw [key, max_eq_left (not_lt.mp h1)]
  · simp only []
    rw [max_eq_left (not_lt.mp h1)]
    exact not_lt.mp h3

/-- C3: for any record and any height with `Δ > 0`, the recent contribution
merged into the historic counters by the decay update — the merged total minus
the decayed historic total, i.e. the clamped `rsi + rfi` — never exceeds
`WeightLimit * max DecayLimit historicTotal`, where `historicTotal` is the
historic total after the one-block decay.  This is the bound before the final
truncation; truncation only lowers the stored values. -/
theorem recencyClamp (cfg : HostDBConfig)
    (hw : 0 ≤ cfg.recentInteractionWeightLimit)
    (hl : 0 ≤ cfg.historicInteractionDecayLimit)
    (host : HostDBEntry) (bh : ℕ)
    (hpt : passedTime bh host.LastHistoricUpdate ≠ 0) :
    (clampRecent cfg
        (decayOneBlock cfg (host.HistoricSuccessfulInteractions : ℚ)
          (host.HistoricFailedInteractions : ℚ)).1
        (decayOneBlock cfg (host.HistoricSuccessfulInteractions : ℚ)
          (host.HistoricFailedInteractions : ℚ)).2
        (host.RecentSuccessfulInteractions : ℚ)
        (host.RecentFailedInteractions : ℚ)).1 +
      (clampRecent cfg
        (decayOneBlock cfg (host.HistoricSuccessfulInteractions : ℚ)
          (host.HistoricFailedInteractions : ℚ)).1
        (decayOneBlock cfg (host.HistoricSuccessfulInteractions : ℚ)
          (host.HistoricFailedInteractions : ℚ)).2
        (host.RecentSuccessfulInteractions : ℚ)
        (host.RecentFailedInteractions : ℚ)).2 ≤
      cfg.recentInteractionWeightLimit *
        max cfg.historicInteractionDecayLimit
          ((decayOneBlock cfg (host.HistoricSuccessfulInteractions : ℚ)
              (host.HistoricFailedInteractions : ℚ)).1 +
            (decayOneBlock cfg (host.HistoricSuccessfulInteractions : ℚ)
              (host.HistoricFailedInteractions : ℚ)).2) :=
  clampRecent_le cfg hw hl _ _ _ _

/-- Witness for `recencyClamp`: the hypotheses hold at scenario A's
configuration and record, at height 1001. -/
theorem recencyClamp_witness :
    (0 ≤ cfgA.recentInteractionWeightLimit ∧ 0 ≤ cfgA.historicInteractionDecayLimit ∧
        passedTime 1001 hostA.LastHistoricUpdate ≠ 0) ∧
      (clampRecent cfgA
          (decayOneBlock cfgA (hostA.HistoricSuccessfulInteractions : ℚ)
            (hostA.HistoricFailedInteractions : ℚ)).1
          (decayOneBlock cfgA (hostA.HistoricSuccessfulInteractions : ℚ)
            (hostA.HistoricFailedInteractions : ℚ)).2
          (hostA.RecentSuccessfulInteractions : ℚ)
          (hostA.RecentFailedInteractions : ℚ)).1 +
        (clampRecent cfgA
          (decayOneBlock cfgA (hostA.HistoricSuccessfulInteractions : ℚ)
            (hostA.HistoricFailedInteractions : ℚ)).1
          (decayOneBlock cfgA (hostA.HistoricSuccessfulInteractions : ℚ)
            (hostA.HistoricFailedInteractions : ℚ)).2
          (hostA.RecentSuccessfulInteractions : ℚ)
          (hostA.RecentFailedInteractions : ℚ)).2 ≤
        cfgA.recentInteractionWeightLimit *
          max cfgA.historicInteractionDecayLimit
            ((decayOneBlock cfgA (hostA.HistoricSuccessfulInteractions : ℚ)
                (hostA.HistoricFailedInteractions : ℚ)).1 +
              (decayOneBlock cfgA (hostA.HistoricSuccessfulInteractions : ℚ)
                (hostA.HistoricFailedInteractions : ℚ)).2) :=
  ⟨⟨by norm_num [cfgA], by norm_num [cfgA], by decide⟩,
    recencyClamp cfgA (by norm_num [cfgA]) (by norm_num [cfgA]) hostA 1001 (by decide)⟩

/-- The tracker state of `HostDB` as far as the interaction-increment paths
read it: the host directory (`hostTree`, keyed by the host public key, here
modelled as `ℕ`), the current block height and the self-health `online`
flag. -/
structure HostDB where
  hostTree : ℕ → Option HostDBEntry
  blockHeight : ℕ
  online : Bool

/-- The call `hdb.hostTree.Modify(host)`: replace the stored record at `key`. -/
def hostTreeModify (tree : ℕ → Option HostDBEntry) (key : ℕ)
    (host : HostDBEntry) : ℕ → Option HostDBEntry :=
  fun k => if k = key then some host else tree k

/-- The method `IncrementSuccessfulInteractions` from `hostentry.go`: look the host up;
if absent, do nothing; otherwise apply the historic update, bump
`RecentSuccessfulInteractions` and write the record back.  The `online` flag
is not consulted. -/
def IncrementSuccessfulInteractions (cfg : HostDBConfig) (hdb : HostDB)
    (key : ℕ) : HostDB :=
  match hdb.hostTree key with
  | none => hdb
  | some host =>
    let host := updateHostHistoricInteractions cfg host hdb.blockHeight
    let host :=
      { host with RecentSuccessfulInteractions := host.RecentSuccessfulInteractions + 1 }
    { hdb with hostTree := hostTreeModify hdb.hostTree key host }

/-- The method `IncrementFailedInteractions` from `hostentry.go`: as the successful
path, except it also returns immediately when `!hdb.online` — if we are
offline it probably was not the host's fault. -/
def IncrementFailedInteractions (cfg : HostDBConfig) (hdb : HostDB)
    (key : ℕ) : HostDB :=
  match hdb.hostTree key with
  | none => hdb
  | some host =>
    if !hdb.online then
      hdb
    else
      let host := updateHostHistoricInteractions cfg host hdb.blockHeight
      let host :=
        { host with RecentFailedInteractions := host.RecentFailedInteractions + 1 }
      { hdb with hostTree := hostTreeModify hdb.hostTree key host }

/-- C5: while the tracker's `online` flag is false, `IncrementFailed` is a
no-op for every key — known or unknown: the whole tracker state, the
directory included, is returned unchanged. -/
theorem offlineSuppression (cfg : HostDBConfig) (hdb : HostDB) (key : ℕ)
    (hoff : hdb.online = false) :
    IncrementFailedInteractions cfg hdb key = hdb := by
  unfold IncrementFailedInteractions
  cases hfind : hdb.hostTree key with
  | none => rfl
  | some host => simp [hoff]

/-- A concrete offline tracker whose directory holds scenario A's record
under key 0. -/
def hdbOffline : HostDB :=
  { hostTree := fun k => if k = 0 then some hostA else none
    blockHeight := 1001
    online := false }

/-- Witness for `offlineSuppression`: the suppression fires on a tracker that
is offline and does know key 0. -/
theorem offlineSuppression_witness :
    (hdbOffline.online = false ∧ hdbOffline.hostTree 0 = some hostA) ∧
      IncrementFailedInteractions cfgA hdbOffline 0 = hdbOffline :=
  ⟨⟨rfl, rfl⟩, offlineSuppression cfgA hdbOffline 0 rfl⟩

/-- C10: `IncrementSuccessful` does not consult `online`: for a key present
in the directory it applies the historic update and writes back the record
with `RecentSuccessfulInteractions` bumped even while the tracker is
offline — and on the very same state the failed-interaction path is
suppressed. -/
theorem successIgnoresOffline (cfg : HostDBConfig) (hdb : HostDB) (key : ℕ)
    (host : HostDBEntry) (hfind : hdb.hostTree key = some host)
    (hoff : hdb.online = false) :
    (IncrementSuccessfulInteractions cfg hdb key).hostTree key =
      some { updateHostHistoricInteractions cfg host hdb.blockHeight with
        RecentSuccessfulInteractions :=
          (updateHostHistoricInteractions cfg host hdb.blockHeight).RecentSuccessfulInteractions + 1 } ∧
      IncrementFailedInteractions cfg hdb key = hdb := by
  constructor
  · unfold IncrementSuccessfulInteractions
    rw [hfind]
    simp [hostTreeModify]
  · unfold IncrementFailedInteractions
    rw [hfind]
    simp [hoff]

/-- Witness for `successIgnoresOffline`: applied to the offline tracker with
the known key 0. -/
theorem successIgnoresOffline_witness :
    (hdbOffline.hostTree 0 = some hostA ∧ hdbOffline.online = false) ∧
      (IncrementSuccessfulInteractions cfgA hdbOffline 0).hostTree 0 =
        some { updateHostHistoricInteractions cfgA hostA hdbOffline.blockHeight with
          RecentSuccessfulInteractions :=
            (updateHostHistoricInteractions cfgA hostA hdbOffline.blockHeight).RecentSuccessfulInteractions + 1 } :=
  ⟨⟨rfl, rfl⟩, (successIgnoresOffline cfgA hdbOffline 0 hostA rfl rfl).1⟩

/-- One-block decay keeps both components non-negative when the decay factor
is non-negative. -/
theorem decayOneBlock_nonneg (cfg : HostDBConfig)
    (hd : 0 ≤ cfg.historicInteractionDecay) (hsi hfi : ℚ)
    (h1 : 0 ≤ hsi) (h2 : 0 ≤ hfi) :
    0 ≤ (decayOneBlock cfg hsi hfi).1 ∧ 0 ≤ (decayOneBlock cfg hsi hfi).2 := by
  unfold decayOneBlock
  split_ifs
  · exact ⟨mul_nonneg h1 hd, mul_nonneg h2 hd⟩
  · exact ⟨h1, h2⟩

/-- The clamp keeps both recent components non-negative: the scaling factor
is a quotient of non-negative quantities. -/
theorem clampRecent_nonneg (cfg : HostDBConfig)
    (hw : 0 ≤ cfg.recentInteractionWeightLimit)
    (hl : 0 ≤ cfg.historicInteractionDecayLimit)
    (hsi hfi rsi rfi : ℚ) (hr1 : 0 ≤ rsi) (hr2 : 0 ≤ rfi) :
    0 ≤ (clampRecent cfg hsi hfi rsi rfi).1 ∧
      0 ≤ (clampRecent cfg hsi hfi rsi rfi).2 := by
  unfold clampRecent
  split_ifs with h1 h2 h3
  · have ht0 : (0 : ℚ) ≤ hsi + hfi := le_trans hl (le_of_lt h1)
    have hadj : 0 ≤ cfg.recentInteractionWeightLimit * (hsi + hfi) / (rsi + rfi) :=
      div_nonneg (mul_nonneg hw ht0) (add_nonneg hr1 hr2)
    exact ⟨mul_nonneg hr1 hadj, mul_nonneg hr2 hadj⟩
  · exact ⟨hr1, hr2⟩
  · have hadj : 0 ≤ cfg.recentInteractionWeightLimit *
        cfg.historicInteractionDecayLimit / (rsi + rfi) :=
      div_nonneg (mul_nonneg hw hl) (add_nonneg hr1 hr2)
    exact ⟨mul_nonneg hr1 hadj, mul_nonneg hr2 hadj⟩
  · exact ⟨hr1, hr2⟩

/-- The remaining-blocks decay keeps both components non-negative. -/
theorem decayRemaining_nonneg (cfg : HostDBConfig)
    (hd : 0 ≤ cfg.historicInteractionDecay) (pt : ℕ) (hsi hfi : ℚ)
    (h1 : 0 ≤ hsi) (h2 : 0 ≤ hfi) :
    0 ≤ (decayRemaining cfg pt hsi hfi).1 ∧
      0 ≤ (decayRemaining cfg pt hsi hfi).2 := by
  unfold decayRemaining
  split_ifs
  · exact ⟨mul_nonneg h1 (pow_nonneg hd _), mul_nonneg h2 (pow_nonneg hd _)⟩
  · exact ⟨h1, h2⟩

/-- Every value the update stores is the floor of a non-negative rational:
the whole float pipeline stays non-negative, so the Go `uint64(...)`
conversion never sees a negative value. -/
theorem updateRat_nonneg (cfg : HostDBConfig)
    (hd : 0 ≤ cfg.historicInteractionDecay)
    (hw : 0 ≤ cfg.recentInteractionWeightLimit)
    (hl : 0 ≤ cfg.historicInteractionDecayLimit)
    (host : HostDBEntry) (pt : ℕ) :
    0 ≤ (updateRat cfg host pt).1 ∧ 0 ≤ (updateRat cfg host pt).2 := by
  have hdn := decayOneBlock_nonneg cfg hd
    (host.HistoricSuccessfulInteractions : ℚ) (host.HistoricFailedInteractions : ℚ)
    (Nat.cast_nonneg _) (Nat.cast_nonneg _)
  have hcl := clampRecent_nonneg cfg hw hl
    (decayOneBlock cfg (host.HistoricSuccessfulInteractions : ℚ)
      (host.HistoricFailedInteractions : ℚ)).1
    (decayOneBlock cfg (host.HistoricSuccessfulInteractions : ℚ)
      (host.HistoricFailedInteractions : ℚ)).2
    (host.RecentSuccessfulInteractions : ℚ) (host.RecentFailedInteractions : ℚ)
    (Nat.cast_nonneg _) (Nat.cast_nonneg _)
  have hre := decayRemaining_nonneg cfg hd pt _ _
    (add_nonneg hdn.1 hcl.1) (add_nonneg hdn.2 hcl.2)
  simpa [updateRat] using hre

/-- The update never lowers `LastHistoricUpdate` below its old value and
never raises it above the current height, provided the record was stamped at
or below the current height. -/
theorem update_lastHistoric_le (cfg : HostDBConfig) (host : HostDBEntry)
    (bh : ℕ) (h : host.LastHistoricUpdate ≤ bh) :
    host.LastHistoricUpdate ≤
        (updateHostHistoricInteractions cfg host bh).LastHistoricUpdate ∧
      (updateHostHistoricInteractions cfg host bh).LastHistoricUpdate ≤ bh := by
  simp only [updateHostHistoricInteractions]
  split_ifs
  · exact ⟨le_refl _, h⟩
  · exact ⟨h, le_refl _⟩

/-- An operation on the reputation tracker: the two public increment entry
points, a bare decay application, and the external advance of the tracker's
block height between calls. -/
inductive TrackerOp where
  | incSuccess (key : ℕ)
  | incFail (key : ℕ)
  | applyDecay (key : ℕ)
  | setHeight (bh : ℕ)

/-- Apply one tracker operation. -/
def applyOp (cfg : HostDBConfig) (hdb : HostDB) : TrackerOp → HostDB
  | .incSuccess key => IncrementSuccessfulInteractions cfg hdb key
  | .incFail key => IncrementFailedInteractions cfg hdb key
  | .applyDecay key =>
    match hdb.hostTree key with
    | none => hdb
    | some host =>
      { hdb with
          hostTree := hostTreeModify hdb.hostTree key
            (updateHostHistoricInteractions cfg host hdb.blockHeight) }
  | .setHeight bh => { hdb with blockHeight := bh }

/-- Apply a sequence of tracker operations, oldest first. -/
def applyOps (cfg : HostDBConfig) (hdb : HostDB) : List TrackerOp → HostDB
  | [] => hdb
  | op :: rest => applyOps cfg (applyOp cfg hdb op) rest

/-- Well-formedness of the tracker: every stored record was last stamped at
or below the current block height. -/
def TrackerWF (hdb : HostDB) : Prop :=
  ∀ k e, hdb.hostTree k = some e → e.LastHistoricUpdate ≤ hdb.blockHeight

/-- An operation is admissible: the block height never moves backwards. -/
def OpOK (hdb : HostDB) : TrackerOp → Prop
  | .setHeight bh => hdb.blockHeight ≤ bh
  | _ => True

/-- Each operation of the sequence is admissible in the state it runs in. -/
def OpsOK (cfg : HostDBConfig) (hdb : HostDB) : List TrackerOp → Prop
  | [] => True
  | op :: rest => OpOK hdb op ∧ OpsOK cfg (applyOp cfg hdb op) rest

/-- Writing back a record whose stamp moved forward but not beyond the
current height preserves well-formedness, keeps every key present and never
lowers any record's stamp. -/
theorem modifyPreserves (hdb : HostDB) (key : ℕ) (host newHost : HostDBEntry)
    (hfind : hdb.hostTree key = some host) (hwf : TrackerWF hdb)
    (h1 : host.LastHistoricUpdate ≤ newHost.LastHistoricUpdate)
    (h2 : newHost.LastHistoricUpdate ≤ hdb.blockHeight) :
    TrackerWF { hdb with hostTree := hostTreeModify hdb.hostTree key newHost } ∧
      ∀ k e, hdb.hostTree k = some e →
        ∃ e2, hostTreeModify hdb.hostTree key newHost k = some e2 ∧
          e.LastHistoricUpdate ≤ e2.LastHistoricUpdate := by
  constructor
  · intro k e he
    by_cases hk : k = key
    · simp only [hostTreeModify, hk, if_pos rfl] at he
      cases he
      exact h2
    · simp only [hostTreeModify, if_neg hk] at he
      exact hwf k e he
  · intro k e he
    by_cases hk : k = key
    · subst hk
      rw [hfind] at he
      cases he
      exact ⟨newHost, by simp [hostTreeModify], h1⟩
    · exact ⟨e, by simp [hostTreeModify, hk, he], le_refl _⟩

/-- One admissible operation preserves well-formedness, keeps every record
present, and never lowers any record's `LastHistoricUpdate`. -/
theorem stepPreserves (cfg : HostDBConfig) (hdb : HostDB) (op : TrackerOp)
    (hwf : TrackerWF hdb) (hok : OpOK hdb op) :
    TrackerWF (applyOp cfg hdb op) ∧
      ∀ k e, hdb.hostTree k = some e →
        ∃ e2, (applyOp cfg hdb op).hostTree k = some e2 ∧
          e.LastHistoricUpdate ≤ e2.LastHistoricUpdate := by
  cases op with
  | incSuccess key =>
    cases hfind : hdb.hostTree key with
    | none =>
      simp only [applyOp, IncrementSuccessfulInteractions, hfind]
      exact ⟨hwf, fun k e he => ⟨e, he, le_refl _⟩⟩
    | some host =>
      simp only [applyOp, IncrementSuccessfulInteractions, hfind]
      have hle := update_lastHistoric_le cfg host hdb.blockHeight (hwf key host hfind)
      exact modifyPreserves hdb key host _ hfind hwf hle.1 hle.2
  | incFail key =>
    cases hfind : hdb.hostTree key with
    | none =>
      simp only [applyOp, IncrementFailedInteractions, hfind]
      exact ⟨hwf, fun k e he => ⟨e, he, le_refl _⟩⟩
    | some host =>
      cases honline : hdb.online with
      | false =>
        simp only [applyOp, IncrementFailedInteractions, hfind, honline, Bool.not_false,
          if_true]
        exact ⟨hwf, fun k e he => ⟨e, he, le_refl _⟩⟩
      | true =>
        simp only [applyOp, IncrementFailedInteractions, hfind, honline, Bool.not_true,
          Bool.false_eq_true, if_false]
        have hle := update_lastHistoric_le cfg host hdb.blockHeight (hwf key host hfind)
        exact modifyPreserves hdb key host _ hfind hwf hle.1 hle.2
  | applyDecay key =>
    cases hfind : hdb.hostTree key with
    | none =>
      simp only [applyOp, hfind]
      exact ⟨hwf, fun k e he => ⟨e, he, le_refl _⟩⟩
    | some host =>
      simp only [applyOp, hfind]
      have hle := update_lastHistoric_le cfg host hdb.blockHeight (hwf key host hfind)
      exact modifyPreserves hdb key host _ hfind hwf hle.1 hle.2
  | setHeight bh =>
    simp only [applyOp]
    exact ⟨fun k e he => le_trans (hwf k e he) hok, fun k e he => ⟨e, he, le_refl _⟩⟩

/-- C7: with non-negative configuration constants, (a) the exact value of
every historic counter the update stores is non-negative — all four counters
stay `≥ 0`, the recent two being reset to 0 or bumped by 1 — and (b) along
any admissible operation sequence the tracker stays well-formed and
`LastHistoricUpdate` is monotonically non-decreasing for every record. -/
theorem countersNonnegLastMonotone (cfg : HostDBConfig)
    (hd : 0 ≤ cfg.historicInteractionDecay)
    (hw : 0 ≤ cfg.recentInteractionWeightLimit)
    (hl : 0 ≤ cfg.historicInteractionDecayLimit) :
    (∀ host pt, 0 ≤ (updateRat cfg host pt).1 ∧ 0 ≤ (updateRat cfg host pt).2) ∧
      ∀ hdb ops, TrackerWF hdb → OpsOK cfg hdb ops →
        TrackerWF (applyOps cfg hdb ops) ∧
          ∀ k e, hdb.hostTree k = some e →
            ∃ e2, (applyOps cfg hdb ops).hostTree k = some e2 ∧
              e.LastHistoricUpdate ≤ e2.LastHistoricUpdate := by
  refine ⟨fun host pt => updateRat_nonneg cfg hd hw hl host pt, ?_⟩
  intro hdb ops
  induction ops generalizing hdb with
  | nil => exact fun hwf _ => ⟨hwf, fun k e he => ⟨e, he, le_refl _⟩⟩
  | cons op rest ih =>
    intro hwf hok
    have hstep := stepPreserves cfg hdb op hwf hok.1
    have hrest := ih (applyOp cfg hdb op) hstep.1 hok.2
    refine ⟨hrest.1, fun k e he => ?_⟩
    obtain ⟨e1, he1, hle1⟩ := hstep.2 k e he
    obtain ⟨e2, he2, hle2⟩ := hrest.2 k e1 he1
    exact ⟨e2, he2, le_trans hle1 hle2⟩

/-- A concrete online tracker holding scenario A's record under key 0. -/
def hdbOnline : HostDB :=
  { hostTree := fun k => if k = 0 then some hostA else none
    blockHeight := 1001
    online := true }

/-- A concrete admissible operation sequence: advance the height, then hit
key 0 with a success, a failure and a bare decay application. -/
def opsA : List TrackerOp :=
  [.setHeight 1002, .incSuccess 0, .incFail 0, .applyDecay 0]

/-- Witness for `countersNonnegLastMonotone`: its hypotheses hold for
scenario A's configuration, the online tracker and the sequence `opsA`. -/
theorem countersNonnegLastMonotone_witness :
    (0 ≤ cfgA.historicInteractionDecay ∧ 0 ≤ cfgA.recentInteractionWeightLimit ∧
        0 ≤ cfgA.historicInteractionDecayLimit ∧
        TrackerWF hdbOnline ∧ OpsOK cfgA hdbOnline opsA) ∧
      TrackerWF (applyOps cfgA hdbOnline opsA) := by
  have hd : 0 ≤ cfgA.historicInteractionDecay := by norm_num [cfgA]
  have hw : 0 ≤ cfgA.recentInteractionWeightLimit := by norm_num [cfgA]
  have hl : 0 ≤ cfgA.historicInteractionDecayLimit := by norm_num [cfgA]
  have hwf : TrackerWF hdbOnline := by
    intro k e he
    by_cases hk : k = 0
    · subst hk
      simp [hdbOnline] at he
      subst he
      decide
    · simp [hdbOnline, hk] at he
  have hops : OpsOK cfgA hdbOnline opsA := by
    simp [opsA, OpsOK, OpOK, hdbOnline]
  exact ⟨⟨hd, hw, hl, hwf, hops⟩,
    ((countersNonnegLastMonotone cfgA hd hw hl).2 hdbOnline opsA hwf hops).1⟩

/-!
The piece availability model and the file registry, from
`modules/renter/files.go`.  The Go `file` holds a back-pointer to its
`Renter` only to reach the shared lock and the current block height; the
embedding passes the height explicitly and drops the lock.
-/

/-- The single field of `types.FileContract` this core reads (`uint64`
block height). -/
structure FileContract where
  WindowStart : ℕ
deriving DecidableEq

/-- The struct `filePiece` from `files.go`.  Hashes, contract ids and network
addresses only flow through, so they are embedded as opaque scalars. -/
structure filePiece where
  Active : Bool
  Repairing : Bool
  Contract : FileContract
  ContractID : ℕ
  HostIP : String
  StartIndex : ℕ
  EndIndex : ℕ
  PieceIndex : ℤ
  Checksum : ℕ
deriving DecidableEq

/-- The struct `file` from `files.go` (persistent fields; the `renter` back-pointer and
the deprecated `UploadParams` are dropped, see above). -/
structure file where
  Name : String
  EncryptionKey : ℕ
  Checksum : ℕ
  ErasureScheme : String
  PiecesRequired : ℤ
  OptimalRecoveryPieces : ℤ
  TotalPieces : ℤ
  Pieces : List filePiece
deriving DecidableEq

/-- The loop body of `Available`: walk the pieces, incrementing a counter on
each active piece, returning true as soon as the counter reaches
`PiecesRequired` (Go `int`, embedded as `ℤ`). -/
def availableLoop (piecesRequired : ℤ) : List filePiece → ℤ → Bool
  | [], _ => false
  | piece :: rest, active =>
    let active := if piece.Active then active + 1 else active
    if active ≥ piecesRequired then true else availableLoop piecesRequired rest active

/-- The method `Available` from `files.go`: whether the file is ready to be
downloaded. -/
def Available (f : file) : Bool :=
  availableLoop f.PiecesRequired f.Pieces 0

/-- The number of pieces with `Active = true`. -/
def countActive (pieces : List filePiece) : ℤ :=
  ((pieces.filter fun piece => piece.Active).length : ℤ)

/-- The method `TimeRemaining` from `files.go`: 0 for a file with no pieces; otherwise
the first piece's contract window start minus the current height, clamped at
0 once the window start has passed. -/
def TimeRemaining (f : file) (blockHeight : ℕ) : ℕ :=
  match f.Pieces with
  | [] => 0
  | piece :: _ =>
    if piece.Contract.WindowStart < blockHeight then 0
    else piece.Contract.WindowStart - blockHeight

/-- The loop of `Available` computes exactly the quorum test on a non-empty
piece list: starting from counter `active`, it returns true iff
`active + countActive pieces` reaches `PiecesRequired`. -/
theorem availableLoop_spec (piecesRequired : ℤ) (pieces : List filePiece) :
    ∀ active : ℤ, pieces ≠ [] →
      (availableLoop piecesRequired pieces active = true ↔
        piecesRequired ≤ active + countActive pieces) := by
  induction pieces with
  | nil => exact fun active h => absurd rfl h
  | cons piece rest ih =>
    intro active _
    have hcnt : (0 : ℤ) ≤ countActive rest := Int.ofNat_nonneg _
    have hsum : active + countActive (piece :: rest) =
        (if piece.Active then active + 1 else active) + countActive rest := by
      by_cases hA : piece.Active <;>
        simp [countActive, List.filter_cons, hA] <;> ring
    rw [hsum]
    simp only [availableLoop]
    by_cases hge : (if piece.Active then active + 1 else active) ≥ piecesRequired
    · rw [if_pos hge]
      exact iff_of_true rfl (le_trans hge (le_add_of_nonneg_right hcnt))
    · rw [if_neg hge]
      cases rest with
      | nil =>
        have h0 : countActive ([] : List filePiece) = 0 := rfl
        rw [h0, add_zero]
        exact iff_of_false (by simp [availableLoop]) hge
      | cons piece2 rest2 => exact ih _ (by simp)

/-- C2 amended: for every file with `PiecesRequired ≥ 1` — or with at least
one piece — `Available` returns true iff the number of pieces with
`Active = true` reaches `PiecesRequired`; in particular the result depends
only on that count, never on the order of the pieces.  (The side condition
is forced by `quorumCorrectness_cex`: a pieceless file with
`PiecesRequired ≤ 0` is reported unavailable although the active count, 0,
already meets the requirement.) -/
theorem quorumCorrectness (f : file)
    (h : 1 ≤ f.PiecesRequired ∨ f.Pieces ≠ []) :
    Available f = true ↔ f.PiecesRequired ≤ countActive f.Pieces := by
  cases hp : f.Pieces with
  | nil =>
    cases h with
    | inl h1 =>
      have h0 : countActive ([] : List filePiece) = 0 := rfl
      simp only [Available, hp, availableLoop, h0]
      exact iff_of_false (by simp) (by omega)
    | inr h2 => exact absurd hp h2
  | cons piece rest =>
    have hmain := availableLoop_spec f.PiecesRequired (piece :: rest) 0 (by simp)
    simp only [Available, hp]
    simpa using hmain

/-- The file on which the unamended C2 fails: no pieces and
`PiecesRequired = 0`. -/
def fNoPieces : file :=
  { Name := "empty"
    EncryptionKey := 0
    Checksum := 0
    ErasureScheme := ""
    PiecesRequired := 0
    OptimalRecoveryPieces := 0
    TotalPieces := 0
    Pieces := [] }

/-- Counterexample to C2 as stated: for `fNoPieces` the active count (0)
meets `PiecesRequired` (0), yet `Available` returns false — the loop never
runs on an empty piece list, so the claimed equivalence fails. -/
theorem quorumCorrectness_cex :
    Available fNoPieces = false ∧
      fNoPieces.PiecesRequired ≤ countActive fNoPieces.Pieces :=
  ⟨rfl, by decide⟩

/-- A piece holding a contract with `WindowStart = 2000`, active or not. -/
def pieceAt2000 (b : Bool) : filePiece :=
  { Active := b
    Repairing := false
    Contract := { WindowStart := 2000 }
    ContractID := 0
    HostIP := "host"
    StartIndex := 0
    EndIndex := 0
    PieceIndex := 0
    Checksum := 0 }

/-- The file of the spec's concrete scenario B: `PiecesRequired = 3`, five
pieces with `Active = [true, false, true, false, true]`. -/
def fScenarioB : file :=
  { Name := "b"
    EncryptionKey := 0
    Checksum := 0
    ErasureScheme := "rs"
    PiecesRequired := 3
    OptimalRecoveryPieces := 4
    TotalPieces := 5
    Pieces := [pieceAt2000 true, pieceAt2000 false, pieceAt2000 true,
      pieceAt2000 false, pieceAt2000 true] }

/-- Witness for `quorumCorrectness`: the hypothesis holds at scenario B's
file, whose availability is exactly the quorum test. -/
theorem quorumCorrectness_witness :
    (1 ≤ fScenarioB.PiecesRequired ∨ fScenarioB.Pieces ≠ []) ∧
      (Available fScenarioB = true ↔
        fScenarioB.PiecesRequired ≤ countActive fScenarioB.Pieces) :=
  ⟨Or.inl (by decide), quorumCorrectness fScenarioB (Or.inl (by decide))⟩

/-- The file of the spec's concrete scenario C: one piece whose contract has
`WindowStart = 2000`. -/
def fScenarioC : file :=
  { Name := "c"
    EncryptionKey := 0
    Checksum := 0
    ErasureScheme := "rs"
    PiecesRequired := 1
    OptimalRecoveryPieces := 1
    TotalPieces := 1
    Pieces := [pieceAt2000 true] }

/-- C6: `TimeRemaining` returns 0 for a pieceless file; otherwise it reads
only the first piece's contract window start, returning 0 once that window
start is below the current height and the difference otherwise; concretely,
with `WindowStart = 2000` it returns 0 at height 2500 and 200 at height
1800. -/
theorem timeRemainingSpec :
    (∀ (f : file) (bh : ℕ), f.Pieces = [] → TimeRemaining f bh = 0) ∧
      (∀ (f : file) (bh : ℕ) (piece : filePiece) (rest : List filePiece),
        f.Pieces = piece :: rest →
          TimeRemaining f bh =
            if piece.Contract.WindowStart < bh then 0
            else piece.Contract.WindowStart - bh) ∧
      TimeRemaining fScenarioC 2500 = 0 ∧ TimeRemaining fScenarioC 1800 = 200 := by
  refine ⟨?_, ?_, ?_, ?_⟩
  · intro f bh h
    simp [TimeRemaining, h]
  · intro f bh piece rest h
    simp [TimeRemaining, h]
  · decide
  · decide

/-- Witness for `timeRemainingSpec`: its hypotheses hold at scenario C's
file. -/
theorem timeRemainingSpec_witness :
    fScenarioC.Pieces = pieceAt2000 true :: [] ∧
      TimeRemaining fScenarioC 1800 =
        if (pieceAt2000 true).Contract.WindowStart < 1800 then 0
        else (pieceAt2000 true).Contract.WindowStart - 1800 :=
  ⟨rfl, timeRemainingSpec.2.1 fScenarioC 1800 (pieceAt2000 true) [] rfl⟩

/-- The two error outcomes of `Renter.Rename`. -/
inductive RenameError where
  | notFound
  | alreadyExists
deriving DecidableEq

/-- The method `Rename` from `files.go`, state-passing over the name-indexed registry
`r.files`: fail if the current name is absent, fail if the new name is
taken, otherwise delete the old key, restamp the entry's `Name` and insert
it under the new key.  (The `r.save()` persistence hook is external.) -/
def Rename (files : String → Option file) (currentName newName : String) :
    (String → Option file) × Option RenameError :=
  match files currentName with
  | none => (files, some RenameError.notFound)
  | some entry =>
    match files newName with
    | some _ => (files, some RenameError.alreadyExists)
    | none =>
      let files2 := fun n => if n = currentName then none else files n
      let entry2 := { entry with Name := newName }
      (fun n => if n = newName then some entry2 else files2 n, none)

/-- C8: `Rename` returns NotFound and leaves every registry entry unchanged
when the source name is absent; returns AlreadyExists and leaves every entry
unchanged when the source exists but the destination name is taken; and only
in the remaining case mutates the registry — moving the entry, with its
`Name` field restamped, from the old key to the new one and touching no
other key. -/
theorem renameAtomic (files : String → Option file) (currentName newName : String) :
    (files currentName = none →
        (Rename files currentName newName).2 = some RenameError.notFound ∧
          ∀ n, (Rename files currentName newName).1 n = files n) ∧
      (∀ entry entry2, files currentName = some entry → files newName = some entry2 →
        (Rename files currentName newName).2 = some RenameError.alreadyExists ∧
          ∀ n, (Rename files currentName newName).1 n = files n) ∧
      (∀ entry, files currentName = some entry → files newName = none →
        (Rename files currentName newName).2 = none ∧
          (Rename files currentName newName).1 newName = some { entry with Name := newName } ∧
          (Rename files currentName newName).1 currentName = none ∧
          ∀ n, n ≠ currentName → n ≠ newName →
            (Rename files currentName newName).1 n = files n) := by
  refine ⟨?_, ?_, ?_⟩
  · intro h
    unfold Rename
    rw [h]
    exact ⟨rfl, fun n => rfl⟩
  · intro entry entry2 h1 h2
    unfold Rename
    rw [h1, h2]
    exact ⟨rfl, fun n => rfl⟩
  · intro entry h1 h2
    have hne : currentName ≠ newName := by
      intro heq
      rw [heq, h2] at h1
      cases h1
    unfold Rename
    rw [h1, h2]
    refine ⟨rfl, by simp, by simp [hne], fun n hn1 hn2 => by simp [hn1, hn2]⟩

/-- A concrete registry holding `fNoPieces` under "a" and `fScenarioB`
under "b". -/
def regAB : String → Option file :=
  fun n => if n = "a" then some fNoPieces else if n = "b" then some fScenarioB else none

/-- Witness for `renameAtomic`: renaming "a" onto the taken name "b" in the
concrete registry surfaces AlreadyExists and leaves the entries in place. -/
theorem renameAtomic_witness :
    (regAB "a" = some fNoPieces ∧ regAB "b" = some fScenarioB) ∧
      (Rename regAB "a" "b").2 = some RenameError.alreadyExists ∧
      (Rename regAB "a" "b").1 "a" = regAB "a" :=
  ⟨⟨rfl, rfl⟩, ((renameAtomic regAB "a" "b").2.1 fNoPieces fScenarioB rfl rfl).1,
    ((renameAtomic regAB "a" "b").2.1 fNoPieces fScenarioB rfl rfl).2 "a"⟩

end Sia
